import Mathlib

/-!
Verification of the suins-indexer offers pipeline.

Shallow embedding of the core of the repository:
- `src/events.rs`: the six typed event structs, BCS deserialization
  (`try_deserialize_event`, modelled byte for byte after the bcs crate
  deserializer actually invoked there), and `convert_domain_name`
  (lossy UTF-8 decoding of the raw domain-name bytes).
- `src/models.rs`: the `Offer` row, the `UpdateOffer` changeset (whose
  `owner : Option (Option String)` field is skipped by the update when it
  is `none`, per diesel AsChangeset semantics), and `OfferStatus`.
- `src/handlers/offers_handler.rs`: `OffersHandlerPipeline::process`
  (checkpoint extraction), `process_event` (classification plus decode),
  `commit` (the per-batch transaction applying events to the offers
  table) and `get_latest_offer_id` (the most-recently-updated matching
  row lookup).

Modelling conventions:
- Rust strings used only for prefix and suffix tests (event type tags)
  are `List Char`; row fields are Lean `String`.
- Byte buffers are `List Nat` (each element a byte value).
- `DateTime Utc` timestamps are `Int` milliseconds since the epoch.
- The database table is a `Store`: a list of rows plus the next serial
  id the database would assign on insert.
- A diesel update by id maps over all rows, replacing those whose id
  matches; a select with order by `updated_at` descending and `first`
  is `latest_aux`, which picks the first row holding the maximal
  `updated_at` (SQL leaves ties unspecified; this is one deterministic
  refinement of it).
- Fallible Rust code and the panic in `process` are modelled with
  `Except String`; storage faults during `commit` are injected through
  an explicit `FaultModel`, and the surrounding `conn.transaction` call
  is modelled by `commit` returning the untouched store on any error.
-/

/-- Offer status enum from `src/models.rs`. -/
inductive OfferStatus where
  | Placed
  | Cancelled
  | Accepted
  | Declined
  | Countered
  | AcceptedCountered
deriving DecidableEq, Repr

/-- A persisted row of the `offers` table (`Offer` in `src/models.rs`).
The Rust struct carries `id : Option i32` with `None` on insert; a
persisted row always has the serial id the database assigned, so the
model stores it as a plain `Nat`. -/
structure OfferRow where
  id : Nat
  domain_name : String
  buyer : String
  initial_value : String
  value : String
  owner : Option String
  status : OfferStatus
  updated_at : Int
  created_at : Int
  last_tx_digest : String
deriving DecidableEq, Repr

/-- The `UpdateOffer` changeset from `src/models.rs`. The `owner` field
has type `Option<Option<String>>` in Rust: diesel AsChangeset skips the
column entirely when the outer option is `None`. -/
structure UpdateOffer where
  value : String
  owner : Option (Option String)
  status : OfferStatus
  updated_at : Int
  last_tx_digest : String
deriving DecidableEq, Repr

/-- Applying an `UpdateOffer` changeset to a row: every field of the
changeset overwrites the row field, except that an `owner` of `none`
leaves the stored owner untouched (diesel skips the column). The id and
the columns absent from the changeset are unchanged. -/
def apply_update (r : OfferRow) (u : UpdateOffer) : OfferRow :=
  { r with
      value := u.value
      owner := match u.owner with
        | none => r.owner
        | some o => o
      status := u.status
      updated_at := u.updated_at
      last_tx_digest := u.last_tx_digest }

/-! ### Typed events (`src/events.rs`) -/

/-- `OfferPlacedEvent`: domain-name bytes, buyer address, u64 value. -/
structure OfferPlacedEvent where
  domain_name : List Nat
  address : List Nat
  value : Nat
deriving DecidableEq, Repr

/-- `OfferCancelledEvent`: domain-name bytes, buyer address, u64 value. -/
structure OfferCancelledEvent where
  domain_name : List Nat
  address : List Nat
  value : Nat
deriving DecidableEq, Repr

/-- `OfferAcceptedEvent`: domain-name bytes, owner, buyer, u64 value. -/
structure OfferAcceptedEvent where
  domain_name : List Nat
  owner : List Nat
  buyer : List Nat
  value : Nat
deriving DecidableEq, Repr

/-- `OfferDeclinedEvent`: domain-name bytes, owner, buyer, u64 value. -/
structure OfferDeclinedEvent where
  domain_name : List Nat
  owner : List Nat
  buyer : List Nat
  value : Nat
deriving DecidableEq, Repr

/-- `MakeCounterOfferEvent`: domain-name bytes, owner, buyer, u64 value. -/
structure MakeCounterOfferEvent where
  domain_name : List Nat
  owner : List Nat
  buyer : List Nat
  value : Nat
deriving DecidableEq, Repr

/-- `AcceptCounterOfferEvent`: domain-name bytes, buyer, u64 value. -/
structure AcceptCounterOfferEvent where
  domain_name : List Nat
  buyer : List Nat
  value : Nat
deriving DecidableEq, Repr

/-! ### String conversions

`convert_domain_name` is `String::from_utf8_lossy`, which replaces every
maximal invalid subpart with U+FFFD. `addr_to_string` models
`SuiAddress::to_string`, the 0x-prefixed lowercase hex rendering of the
address bytes. `u64_to_string` is the decimal `to_string` of a u64. -/

/-- One step of lossy UTF-8 decoding: decode the leading scalar value if
the prefix is well formed, otherwise emit U+FFFD for the maximal invalid
subpart. Returns the decoded char and the number of bytes consumed
(at least one). -/
def utf8_step (b1 : Nat) (rest : List Nat) : Char × Nat :=
  let repl : Char × Nat := (Char.ofNat 0xFFFD, 1)
  let cont : Nat → Bool := fun b => 0x80 ≤ b && b ≤ 0xBF
  if b1 < 0x80 then
    (Char.ofNat b1, 1)
  else if 0xC2 ≤ b1 && b1 ≤ 0xDF then
    match rest with
    | b2 :: _ =>
      if cont b2 then (Char.ofNat ((b1 - 0xC0) * 0x40 + (b2 - 0x80)), 2)
      else repl
    | [] => repl
  else if 0xE0 ≤ b1 && b1 ≤ 0xEF then
    let okSecond : Nat → Bool := fun b2 =>
      if b1 = 0xE0 then 0xA0 ≤ b2 && b2 ≤ 0xBF
      else if b1 = 0xED then 0x80 ≤ b2 && b2 ≤ 0x9F
      else cont b2
    match rest with
    | b2 :: b3 :: _ =>
      if okSecond b2 then
        if cont b3 then
          (Char.ofNat ((b1 - 0xE0) * 0x1000 + (b2 - 0x80) * 0x40 + (b3 - 0x80)), 3)
        else (Char.ofNat 0xFFFD, 2)
      else repl
    | [b2] => if okSecond b2 then (Char.ofNat 0xFFFD, 2) else repl
    | [] => repl
  else if 0xF0 ≤ b1 && b1 ≤ 0xF4 then
    let okSecond : Nat → Bool := fun b2 =>
      if b1 = 0xF0 then 0x90 ≤ b2 && b2 ≤ 0xBF
      else if b1 = 0xF4 then 0x80 ≤ b2 && b2 ≤ 0x8F
      else cont b2
    match rest with
    | b2 :: b3 :: b4 :: _ =>
      if okSecond b2 then
        if cont b3 then
          if cont b4 then
            (Char.ofNat ((b1 - 0xF0) * 0x40000 + (b2 - 0x80) * 0x1000 +
              (b3 - 0x80) * 0x40 + (b4 - 0x80)), 4)
          else (Char.ofNat 0xFFFD, 3)
        else (Char.ofNat 0xFFFD, 2)
      else repl
    | [b2, b3] =>
      if okSecond b2 then
        if cont b3 then (Char.ofNat 0xFFFD, 3) else (Char.ofNat 0xFFFD, 2)
      else repl
    | [b2] => if okSecond b2 then (Char.ofNat 0xFFFD, 2) else repl
    | [] => repl
  else
    repl

/-- Fuel-indexed driver for lossy UTF-8 decoding; each step consumes at
least one byte, so fuel equal to the length of the input suffices. -/
def utf8_lossy_go : Nat → List Nat → List Char
  | 0, _ => []
  | _, [] => []
  | fuel + 1, b1 :: rest =>
    let (c, n) := utf8_step b1 rest
    c :: utf8_lossy_go fuel ((b1 :: rest).drop n)

/-- Lossy UTF-8 decoding of a byte list, per `String::from_utf8_lossy`. -/
def utf8_lossy (l : List Nat) : List Char :=
  utf8_lossy_go l.length l

/-- `convert_domain_name` from `src/events.rs`:
`String::from_utf8_lossy(domain_name).to_string()`. -/
def convert_domain_name (domain_name : List Nat) : String :=
  ⟨utf8_lossy domain_name⟩

/-- Lowercase hex digit for a value below 16. -/
def hex_digit (n : Nat) : Char :=
  if n < 10 then Char.ofNat (48 + n) else Char.ofNat (87 + n)

/-- `SuiAddress::to_string`: 0x followed by two lowercase hex digits per
address byte. -/
def addr_to_string (a : List Nat) : String :=
  ⟨'0' :: 'x' :: (a.map (fun b => [hex_digit (b / 16), hex_digit (b % 16)])).flatten⟩

/-- Decimal rendering of a u64, as `u64::to_string`. -/
def u64_to_string (n : Nat) : String :=
  Nat.repr n

/-! ### BCS deserialization (`try_deserialize_event` in `src/events.rs`)

The bcs crate decodes each struct as its fields in declaration order:
a `Vec<u8>` is a canonical ULEB128 length followed by that many bytes, a
`SuiAddress` is 32 raw bytes, a `u64` is 8 little-endian bytes, and
`bcs::from_bytes` fails unless the input is consumed exactly. -/

/-- ULEB128 decoding of a u32 length, after the bcs crate: digits are
accumulated over shifts 0, 7, 14, 21, 28; a final digit of zero after
the first byte is rejected as non-canonical, and values not fitting a
u32 are rejected as overflow. -/
def read_uleb_go : List Nat → Nat → Nat → Option (Nat × List Nat)
  | [], _, _ => none
  | b :: rest, shift, acc =>
    if shift ≥ 32 then none
    else
      let digit := b % 128
      let acc2 := acc + digit * 2 ^ shift
      if b < 128 then
        if shift > 0 ∧ digit = 0 then none
        else if acc2 < 2 ^ 32 then some (acc2, rest)
        else none
      else read_uleb_go rest (shift + 7) acc2

/-- Entry point for ULEB128 length decoding. -/
def read_uleb (l : List Nat) : Option (Nat × List Nat) :=
  read_uleb_go l 0 0

/-- Read exactly `n` raw bytes. -/
def read_bytes (n : Nat) (l : List Nat) : Option (List Nat × List Nat) :=
  if n ≤ l.length then some (l.take n, l.drop n) else none

/-- Read a u64 as 8 little-endian bytes. -/
def read_u64 : List Nat → Option (Nat × List Nat)
  | b0 :: b1 :: b2 :: b3 :: b4 :: b5 :: b6 :: b7 :: rest =>
    some (b0 + 256 * (b1 + 256 * (b2 + 256 * (b3 + 256 * (b4 + 256 *
      (b5 + 256 * (b6 + 256 * b7)))))), rest)
  | _ => none

/-- Read a BCS `Vec<u8>`: ULEB128 length then that many bytes. -/
def read_vec_u8 (l : List Nat) : Option (List Nat × List Nat) :=
  match read_uleb l with
  | none => none
  | some (n, r) => read_bytes n r

/-- Read a `SuiAddress`: 32 raw bytes. -/
def read_address (l : List Nat) : Option (List Nat × List Nat) :=
  read_bytes 32 l

/-- BCS decode of `OfferPlacedEvent` (domain-name bytes, address, u64),
requiring the input to be consumed exactly as `bcs::from_bytes` does. -/
def deserialize_offer_placed (contents : List Nat) : Option OfferPlacedEvent :=
  match read_vec_u8 contents with
  | none => none
  | some (dn, r1) =>
    match read_address r1 with
    | none => none
    | some (a, r2) =>
      match read_u64 r2 with
      | none => none
      | some (v, r3) =>
        if r3 = [] then some ⟨dn, a, v⟩ else none

/-- BCS decode of `OfferCancelledEvent` (same schema as placed). -/
def deserialize_offer_cancelled (contents : List Nat) : Option OfferCancelledEvent :=
  match deserialize_offer_placed contents with
  | none => none
  | some e => some ⟨e.domain_name, e.address, e.value⟩

/-- BCS decode of the shared owner-buyer schema (domain-name bytes,
owner address, buyer address, u64 value). -/
def deserialize_owner_buyer (contents : List Nat) :
    Option (List Nat × List Nat × List Nat × Nat) :=
  match read_vec_u8 contents with
  | none => none
  | some (dn, r1) =>
    match read_address r1 with
    | none => none
    | some (ow, r2) =>
      match read_address r2 with
      | none => none
      | some (bu, r3) =>
        match read_u64 r3 with
        | none => none
        | some (v, r4) =>
          if r4 = [] then some (dn, ow, bu, v) else none

/-- BCS decode of `OfferAcceptedEvent`. -/
def deserialize_offer_accepted (contents : List Nat) : Option OfferAcceptedEvent :=
  match deserialize_owner_buyer contents with
  | none => none
  | some (dn, ow, bu, v) => some ⟨dn, ow, bu, v⟩

/-- BCS decode of `OfferDeclinedEvent`. -/
def deserialize_offer_declined (contents : List Nat) : Option OfferDeclinedEvent :=
  match deserialize_owner_buyer contents with
  | none => none
  | some (dn, ow, bu, v) => some ⟨dn, ow, bu, v⟩

/-- BCS decode of `MakeCounterOfferEvent`. -/
def deserialize_make_counter_offer (contents : List Nat) : Option MakeCounterOfferEvent :=
  match deserialize_owner_buyer contents with
  | none => none
  | some (dn, ow, bu, v) => some ⟨dn, ow, bu, v⟩

/-- BCS decode of `AcceptCounterOfferEvent` (domain-name bytes, buyer,
u64 value). -/
def deserialize_accept_counter_offer (contents : List Nat) : Option AcceptCounterOfferEvent :=
  match read_vec_u8 contents with
  | none => none
  | some (dn, r1) =>
    match read_address r1 with
    | none => none
    | some (bu, r2) =>
      match read_u64 r2 with
      | none => none
      | some (v, r3) =>
        if r3 = [] then some ⟨dn, bu, v⟩ else none

/-! ### Classification (`OffersHandlerPipeline::process_event`) -/

/-- The `OfferEvent` sum type from `src/handlers/offers_handler.rs`. -/
inductive OfferEvent where
  | Placed (e : OfferPlacedEvent)
  | Cancelled (e : OfferCancelledEvent)
  | Accepted (e : OfferAcceptedEvent)
  | Declined (e : OfferDeclinedEvent)
  | MakeCounterOffer (e : MakeCounterOfferEvent)
  | AcceptCounterOffer (e : AcceptCounterOfferEvent)
deriving DecidableEq, Repr

/-- `OfferValue`: a decoded event tagged with the checkpoint timestamp
and its transaction digest. -/
structure OfferValue where
  event : OfferEvent
  created_at : Int
  tx_digest : String
deriving DecidableEq, Repr

/-- A raw on-chain event: fully-qualified type tag and BCS payload. -/
structure RawEvent where
  type_ : List Char
  contents : List Nat
deriving DecidableEq, Repr

/-- A checkpoint transaction: digest plus optional emitted events. -/
structure Transaction where
  digest : String
  events : Option (List RawEvent)
deriving DecidableEq, Repr

/-- A checkpoint: millisecond timestamp and ordered transactions. -/
structure Checkpoint where
  timestamp_ms : Nat
  transactions : List Transaction
deriving DecidableEq, Repr

def suffix_placed : List Char := "::OfferPlacedEvent".data
def suffix_cancelled : List Char := "::OfferCancelledEvent".data
def suffix_accepted : List Char := "::OfferAcceptedEvent".data
def suffix_declined : List Char := "::OfferDeclinedEvent".data
def suffix_make_counter : List Char := "::MakeCounterOfferEvent".data
def suffix_accept_counter : List Char := "::AcceptCounterOfferEvent".data

/-- `process_event`: when the type tag begins with the configured
contract package id, dispatch on the six recognized suffixes in the
order of the source if-chain; a failed BCS decode is an error, an
unrecognized suffix falls through to `ok none`, as does a tag that does
not begin with the package id. -/
def process_event (pkg : List Char) (e : RawEvent) : Except String (Option OfferEvent) :=
  if pkg.isPrefixOf e.type_ then
    if suffix_placed.isSuffixOf e.type_ then
      match deserialize_offer_placed e.contents with
      | some ev => .ok (some (.Placed ev))
      | none => .error "Failed to deserialize"
    else if suffix_cancelled.isSuffixOf e.type_ then
      match deserialize_offer_cancelled e.contents with
      | some ev => .ok (some (.Cancelled ev))
      | none => .error "Failed to deserialize"
    else if suffix_accepted.isSuffixOf e.type_ then
      match deserialize_offer_accepted e.contents with
      | some ev => .ok (some (.Accepted ev))
      | none => .error "Failed to deserialize"
    else if suffix_declined.isSuffixOf e.type_ then
      match deserialize_offer_declined e.contents with
      | some ev => .ok (some (.Declined ev))
      | none => .error "Failed to deserialize"
    else if suffix_make_counter.isSuffixOf e.type_ then
      match deserialize_make_counter_offer e.contents with
      | some ev => .ok (some (.MakeCounterOffer ev))
      | none => .error "Failed to deserialize"
    else if suffix_accept_counter.isSuffixOf e.type_ then
      match deserialize_accept_counter_offer e.contents with
      | some ev => .ok (some (.AcceptCounterOffer ev))
      | none => .error "Failed to deserialize"
    else .ok none
  else .ok none

/-! ### Extraction (`OffersHandlerPipeline::process`) -/

/-- Upper bound, in milliseconds, accepted by chrono
`DateTime::<Utc>::from_timestamp_millis` (the millisecond timestamp of
`NaiveDateTime::MAX`); larger values make it return `None`. -/
def max_timestamp_millis : Int := 8210266876799999

/-- The timestamp derivation at the top of `process`: `u64 -> i64`
conversion (fails at `2 ^ 63`), then `from_timestamp_millis` (fails
beyond the chrono range). Performed once per checkpoint. -/
def derive_created_at (timestamp_ms : Nat) : Except String Int :=
  if timestamp_ms ≥ 2 ^ 63 then .error "Timestamp too large to convert to i64"
  else if (timestamp_ms : Int) > max_timestamp_millis then .error "invalid timestamp"
  else .ok (timestamp_ms : Int)

/-- The inner event loop of `process` for one transaction: decoded
events are collected in order; a decode error makes the source panic,
modelled as error propagation. -/
def process_tx_events (pkg : List Char) (digest : String) (t : Int) :
    List RawEvent → Except String (List OfferValue)
  | [] => .ok []
  | e :: rest =>
    match process_event pkg e with
    | .error m => .error m
    | .ok none => process_tx_events pkg digest t rest
    | .ok (some ev) =>
      match process_tx_events pkg digest t rest with
      | .error m => .error m
      | .ok vs => .ok ({ event := ev, created_at := t, tx_digest := digest } :: vs)

/-- Per-transaction extraction: a transaction without events yields
nothing. -/
def process_tx (pkg : List Char) (t : Int) (tx : Transaction) :
    Except String (List OfferValue) :=
  match tx.events with
  | none => .ok []
  | some evs => process_tx_events pkg tx.digest t evs

/-- The `filter_map` plus `flatten` over transactions: transactions with
no decoded events are skipped (which is invisible after flattening). -/
def process_txs (pkg : List Char) (t : Int) :
    List Transaction → Except String (List OfferValue)
  | [] => .ok []
  | tx :: rest =>
    match process_tx pkg t tx with
    | .error m => .error m
    | .ok vals =>
      match process_txs pkg t rest with
      | .error m => .error m
      | .ok tail => .ok ((if vals.isEmpty then [] else vals) ++ tail)

/-- `OffersHandlerPipeline::process`: derive the checkpoint timestamp
once, then walk the transactions in order. -/
def process (pkg : List Char) (cp : Checkpoint) : Except String (List OfferValue) :=
  match derive_created_at cp.timestamp_ms with
  | .error m => .error m
  | .ok t => process_txs pkg t cp.transactions

/-! ### The offer store and the reconciler (`Handler::commit`) -/

/-- The persisted `offers` table: its rows in insertion order, plus the
next serial id the database will assign. -/
structure Store where
  rows : List OfferRow
  nextId : Nat
deriving DecidableEq, Repr

/-- The empty table. -/
def empty_store : Store := { rows := [], nextId := 0 }

/-- Well-formedness of a store as the database maintains it: every
assigned id is below the next serial value, and ids are pairwise
distinct. -/
def WFStore (s : Store) : Prop :=
  (∀ r ∈ s.rows, r.id < s.nextId) ∧ (s.rows.map (fun r => r.id)).Nodup

/-- The row filter of `get_latest_offer_id`:
`domain_name = d` and `buyer = b`. -/
def matches_key (d b : String) (r : OfferRow) : Bool :=
  r.domain_name == d && r.buyer == b

/-- `order by updated_at desc` followed by `first`: the first row
carrying the maximal `updated_at`, together with its index in the given
list (SQL does not fix the order of ties; taking the earliest maximal
row is one deterministic refinement). -/
def latest_aux : List OfferRow → Option (OfferRow × Nat)
  | [] => none
  | r :: rs =>
    match latest_aux rs with
    | none => some (r, 0)
    | some (m, j) =>
      if m.updated_at > r.updated_at then some (m, j + 1) else some (r, 0)

/-- `OffersHandlerPipeline::get_latest_offer_id`: select the id of the
most recently updated row matching the domain name and the buyer. -/
def get_latest_offer_id (rows : List OfferRow) (d b : String) : Option Nat :=
  (latest_aux (rows.filter (matches_key d b))).map (fun x => x.1.id)

/-- A diesel `update ... filter(id.eq(i)) ... set u` applied to one row:
rows with the given id receive the changeset, others are untouched. -/
def upd_if_id (i : Nat) (u : UpdateOffer) (r : OfferRow) : OfferRow :=
  if r.id = i then apply_update r u else r

/-- The changeset built by the Cancelled branch of `commit`: the event
value as a decimal string, owner skipped, status Cancelled, timestamp
and digest from the batched value. -/
def cancel_update (e : OfferCancelledEvent) (v : OfferValue) : UpdateOffer :=
  { value := u64_to_string e.value
    owner := none
    status := OfferStatus.Cancelled
    updated_at := v.created_at
    last_tx_digest := v.tx_digest }

/-- The row inserted by the Placed branch of `commit`. -/
def placed_row (e : OfferPlacedEvent) (v : OfferValue) (id : Nat) : OfferRow :=
  { id := id
    domain_name := convert_domain_name e.domain_name
    buyer := addr_to_string e.address
    initial_value := u64_to_string e.value
    value := u64_to_string e.value
    owner := none
    status := OfferStatus.Placed
    updated_at := v.created_at
    created_at := v.created_at
    last_tx_digest := v.tx_digest }

/-- One iteration of the event loop inside `commit`: Placed inserts a
fresh row; Cancelled looks up the latest matching row and, when found,
applies `cancel_update`, otherwise logs a warning and leaves the store
untouched; the four remaining branches of the source match are commented
out (TODO stubs) and mutate nothing. -/
def apply_value (s : Store) (v : OfferValue) : Store :=
  match v.event with
  | .Placed e =>
    { rows := s.rows ++ [placed_row e v s.nextId], nextId := s.nextId + 1 }
  | .Cancelled e =>
    let d := convert_domain_name e.domain_name
    match get_latest_offer_id s.rows d (addr_to_string e.address) with
    | some i => { s with rows := s.rows.map (upd_if_id i (cancel_update e v)) }
    | none => s
  | .Accepted _ => s
  | .Declined _ => s
  | .MakeCounterOffer _ => s
  | .AcceptCounterOffer _ => s

/-- The event loop of `commit` run to completion without storage
faults. -/
def apply_batch (values : List OfferValue) (s : Store) : Store :=
  values.foldl apply_value s

/-- Injected storage faults: for each event index, either the storage
operation succeeds or it fails with the given error. -/
structure FaultModel where
  fails : Nat → Option String

/-- A healthy storage layer. -/
def no_faults : FaultModel := { fails := fun _ => none }

/-- The body of the `conn.transaction(...)` closure in `commit`: events
are applied in order; a storage fault at an event propagates out of the
loop through the question-mark operator. -/
def commit_body (fm : FaultModel) : List OfferValue → Nat → Store → Except String Store
  | [], _, s => .ok s
  | v :: rest, idx, s =>
    match fm.fails idx with
    | some e => .error e
    | none => commit_body fm rest (idx + 1) (apply_value s v)

/-- `Handler::commit`: an empty batch returns zero immediately;
otherwise the whole batch runs inside one transaction, so a failing body
leaves the store exactly as it was and surfaces the error, while a
successful body commits every mutation and returns the batch length. -/
def commit (fm : FaultModel) (values : List OfferValue) (s : Store) :
    Except String Nat × Store :=
  if values.isEmpty then (.ok 0, s)
  else
    match commit_body fm values 0 s with
    | .ok s2 => (.ok values.length, s2)
    | .error e => (.error e, s)

/-- The buyer key an event is reconciled under: the `address` field for
Placed and Cancelled, the `buyer` field for the other four kinds. -/
def event_buyer (v : OfferValue) : String :=
  match v.event with
  | .Placed e => addr_to_string e.address
  | .Cancelled e => addr_to_string e.address
  | .Accepted e => addr_to_string e.buyer
  | .Declined e => addr_to_string e.buyer
  | .MakeCounterOffer e => addr_to_string e.buyer
  | .AcceptCounterOffer e => addr_to_string e.buyer

/-- Buyer-column filter. -/
def buyer_is (b : String) (r : OfferRow) : Bool :=
  r.buyer == b

/-- Forget the surrogate id of a row, for comparing per-buyer
projections of stores whose serial counters have diverged. -/
def erase_id (r : OfferRow) : OfferRow :=
  { r with id := 0 }

deriving instance DecidableEq for Except

/-! ### Basic lemmas about the embedded operations -/

theorem apply_update_id (r : OfferRow) (u : UpdateOffer) :
    (apply_update r u).id = r.id := rfl

theorem apply_update_domain (r : OfferRow) (u : UpdateOffer) :
    (apply_update r u).domain_name = r.domain_name := rfl

theorem apply_update_buyer (r : OfferRow) (u : UpdateOffer) :
    (apply_update r u).buyer = r.buyer := rfl

theorem upd_if_id_id (i : Nat) (u : UpdateOffer) (r : OfferRow) :
    (upd_if_id i u r).id = r.id := by
  unfold upd_if_id
  split <;> rfl

theorem matches_key_upd_if_id (d b : String) (i : Nat) (u : UpdateOffer) (r : OfferRow) :
    matches_key d b (upd_if_id i u r) = matches_key d b r := by
  unfold upd_if_id
  split <;> rfl

theorem buyer_is_upd_if_id (b : String) (i : Nat) (u : UpdateOffer) (r : OfferRow) :
    buyer_is b (upd_if_id i u r) = buyer_is b r := by
  unfold upd_if_id
  split <;> rfl

theorem buyer_is_erase_id (b : String) (r : OfferRow) :
    buyer_is b (erase_id r) = buyer_is b r := rfl

theorem erase_id_updated_at (r : OfferRow) :
    (erase_id r).updated_at = r.updated_at := rfl

theorem erase_id_apply_update (r r' : OfferRow) (u : UpdateOffer)
    (h : erase_id r = erase_id r') :
    erase_id (apply_update r u) = erase_id (apply_update r' u) := by
  have hdn : r.domain_name = r'.domain_name := congrArg (fun x => x.domain_name) h
  have hb : r.buyer = r'.buyer := congrArg (fun x => x.buyer) h
  have hiv : r.initial_value = r'.initial_value := congrArg (fun x => x.initial_value) h
  have hown : r.owner = r'.owner := congrArg (fun x => x.owner) h
  have hca : r.created_at = r'.created_at := congrArg (fun x => x.created_at) h
  simp [erase_id, apply_update, hdn, hb, hiv, hown, hca]

/-- A map commutes with a filter whose predicate the map preserves. -/
theorem filter_map_comm {α : Type} (l : List α) (f : α → α) (p : α → Bool)
    (h : ∀ a, p (f a) = p a) :
    (l.map f).filter p = (l.filter p).map f := by
  rw [List.filter_map]
  congr 1
  apply List.filter_congr
  intro a _
  simp [h]

/-- Updating an id that occurs nowhere in the list changes nothing. -/
theorem map_upd_not_mem (l : List OfferRow) (i : Nat) (u : UpdateOffer)
    (h : ∀ r ∈ l, r.id ≠ i) :
    l.map (upd_if_id i u) = l := by
  conv_rhs => rw [← List.map_id l]
  apply List.map_congr_left
  intro r hr
  simp [upd_if_id, h r hr]

/-- Two members of an id-nodup list with the same id are equal. -/
theorem eq_of_id_eq (l : List OfferRow)
    (hn : (l.map (fun r => r.id)).Nodup)
    (r m : OfferRow) (hr : r ∈ l) (hm : m ∈ l) (h : r.id = m.id) : r = m :=
  List.inj_on_of_nodup_map hn hr hm h

/-! ### Lemmas about the latest-row lookup -/

theorem latest_aux_eq_none (l : List OfferRow) :
    latest_aux l = none ↔ l = [] := by
  cases l with
  | nil => simp [latest_aux]
  | cons r rs =>
    simp only [latest_aux]
    cases hrec : latest_aux rs with
    | none => simp
    | some x =>
      obtain ⟨m, j⟩ := x
      dsimp only
      by_cases hg : m.updated_at > r.updated_at
      · rw [if_pos hg]; simp
      · rw [if_neg hg]; simp

theorem latest_aux_mem (l : List OfferRow) (m : OfferRow) (j : Nat)
    (h : latest_aux l = some (m, j)) : m ∈ l := by
  induction l generalizing m j with
  | nil => simp [latest_aux] at h
  | cons r rs ih =>
    simp only [latest_aux] at h
    cases hrec : latest_aux rs with
    | none =>
      rw [hrec] at h
      simp only [Option.some.injEq, Prod.mk.injEq] at h
      rw [← h.1]
      exact List.mem_cons_self r rs
    | some x =>
      obtain ⟨m', j'⟩ := x
      rw [hrec] at h
      dsimp only at h
      by_cases hg : m'.updated_at > r.updated_at
      · rw [if_pos hg] at h
        simp only [Option.some.injEq, Prod.mk.injEq] at h
        exact h.1 ▸ List.mem_cons_of_mem r (ih m' j' hrec)
      · rw [if_neg hg] at h
        simp only [Option.some.injEq, Prod.mk.injEq] at h
        rw [← h.1]
        exact List.mem_cons_self r rs

theorem latest_aux_get (l : List OfferRow) (m : OfferRow) (j : Nat)
    (h : latest_aux l = some (m, j)) : l[j]? = some m := by
  induction l generalizing m j with
  | nil => simp [latest_aux] at h
  | cons r rs ih =>
    simp only [latest_aux] at h
    cases hrec : latest_aux rs with
    | none =>
      rw [hrec] at h
      simp only [Option.some.injEq, Prod.mk.injEq] at h
      rw [← h.1, ← h.2]
      simp
    | some x =>
      obtain ⟨m', j'⟩ := x
      rw [hrec] at h
      dsimp only at h
      by_cases hg : m'.updated_at > r.updated_at
      · rw [if_pos hg] at h
        simp only [Option.some.injEq, Prod.mk.injEq] at h
        rw [← h.1, ← h.2]
        simpa using ih m' j' hrec
      · rw [if_neg hg] at h
        simp only [Option.some.injEq, Prod.mk.injEq] at h
        rw [← h.1, ← h.2]
        simp

theorem latest_aux_le (l : List OfferRow) (m : OfferRow) (j : Nat)
    (h : latest_aux l = some (m, j)) :
    ∀ r ∈ l, r.updated_at ≤ m.updated_at := by
  induction l generalizing m j with
  | nil => simp [latest_aux] at h
  | cons r rs ih =>
    simp only [latest_aux] at h
    intro a ha
    cases hrec : latest_aux rs with
    | none =>
      rw [hrec] at h
      simp only [Option.some.injEq, Prod.mk.injEq] at h
      have hnil := (latest_aux_eq_none rs).mp hrec
      subst hnil
      simp only [List.mem_singleton] at ha
      subst ha
      rw [← h.1]
    | some x =>
      obtain ⟨m', j'⟩ := x
      rw [hrec] at h
      dsimp only at h
      have hle := ih m' j' hrec
      by_cases hg : m'.updated_at > r.updated_at
      · rw [if_pos hg] at h
        simp only [Option.some.injEq, Prod.mk.injEq] at h
        rw [← h.1]
        rcases List.mem_cons.mp ha with rfl | hmem
        · omega
        · exact hle a hmem
      · rw [if_neg hg] at h
        simp only [Option.some.injEq, Prod.mk.injEq] at h
        rw [← h.1]
        rcases List.mem_cons.mp ha with rfl | hmem
        · exact le_refl _
        · have := hle a hmem
          omega

theorem latest_aux_map_erase (l : List OfferRow) :
    latest_aux (l.map erase_id) =
      (latest_aux l).map (fun x => (erase_id x.1, x.2)) := by
  induction l with
  | nil => simp [latest_aux]
  | cons r rs ih =>
    simp only [List.map_cons, latest_aux, ih]
    cases hrec : latest_aux rs with
    | none => simp
    | some x =>
      obtain ⟨m, j⟩ := x
      dsimp only [Option.map, erase_id]
      by_cases hg : m.updated_at > r.updated_at
      · simp [hg]
      · simp [hg]

/-- Replacing the chosen latest row through its id with an update whose
timestamp dominates the whole list keeps it the chosen latest row, at
the same position. -/
theorem latest_aux_update_stable (l : List OfferRow) (m : OfferRow) (j : Nat)
    (u : UpdateOffer)
    (hn : (l.map (fun r => r.id)).Nodup)
    (hla : latest_aux l = some (m, j))
    (hle : ∀ r ∈ l, r.updated_at ≤ u.updated_at) :
    latest_aux (l.map (upd_if_id m.id u)) = some (apply_update m u, j) := by
  induction l generalizing m j with
  | nil => simp [latest_aux] at hla
  | cons r rs ih =>
    simp only [latest_aux] at hla
    simp only [List.map_cons, List.nodup_cons] at hn
    cases hrec : latest_aux rs with
    | none =>
      rw [hrec] at hla
      simp only [Option.some.injEq, Prod.mk.injEq] at hla
      have hnil := (latest_aux_eq_none rs).mp hrec
      subst hnil
      obtain ⟨h1, h2⟩ := hla
      subst h1
      subst h2
      simp [latest_aux, upd_if_id]
    | some x =>
      obtain ⟨m', j'⟩ := x
      rw [hrec] at hla
      dsimp only at hla
      by_cases hg : m'.updated_at > r.updated_at
      · rw [if_pos hg] at hla
        simp only [Option.some.injEq, Prod.mk.injEq] at hla
        obtain ⟨h1, h2⟩ := hla
        subst h1
        subst h2
        have hmem : m' ∈ rs := latest_aux_mem rs m' j' hrec
        have hne : r.id ≠ m'.id := by
          intro he
          exact hn.1 (he ▸ List.mem_map_of_mem (fun x => x.id) hmem)
        have hhead : upd_if_id m'.id u r = r := by
          simp [upd_if_id, hne]
        have htail := ih m' j' hn.2 hrec (fun a ha => hle a (List.mem_cons_of_mem r ha))
        simp only [List.map_cons, hhead, latest_aux, htail]
        have hgt : (apply_update m' u).updated_at > r.updated_at := by
          have h1 : m'.updated_at ≤ u.updated_at := hle m' (List.mem_cons_of_mem r hmem)
          have h2 : (apply_update m' u).updated_at = u.updated_at := rfl
          omega
        rw [if_pos hgt]
      · rw [if_neg hg] at hla
        simp only [Option.some.injEq, Prod.mk.injEq] at hla
        obtain ⟨h1, h2⟩ := hla
        subst h1
        subst h2
        have hhead : upd_if_id r.id u r = apply_update r u := by
          simp [upd_if_id]
        have htail : rs.map (upd_if_id r.id u) = rs := by
          apply map_upd_not_mem
          intro a ha he
          exact hn.1 (he ▸ List.mem_map_of_mem (fun x => x.id) ha)
        simp only [List.map_cons, hhead, htail, latest_aux, hrec]
        have hngt : ¬ m'.updated_at > (apply_update r u).updated_at := by
          have h1 : m'.updated_at ≤ u.updated_at :=
            hle m' (List.mem_cons_of_mem r (latest_aux_mem rs m' j' hrec))
          have h2 : (apply_update r u).updated_at = u.updated_at := rfl
          omega
        rw [if_neg hngt]

/-- `apply_value` preserves store well-formedness. -/
theorem wf_apply_value (s : Store) (v : OfferValue) (h : WFStore s) :
    WFStore (apply_value s v) := by
  obtain ⟨hlt, hnd⟩ := h
  cases hv : v.event with
  | Placed e =>
    have hs : apply_value s v =
        { rows := s.rows ++ [placed_row e v s.nextId], nextId := s.nextId + 1 } := by
      simp [apply_value, hv]
    rw [hs]
    constructor
    · intro r hr
      simp only [List.mem_append, List.mem_singleton] at hr
      rcases hr with hr | rfl
      · exact Nat.lt_succ_of_lt (hlt r hr)
      · exact Nat.lt_succ_self _
    · simp only [List.map_append, List.map_cons, List.map_nil]
      rw [List.nodup_append]
      refine ⟨hnd, List.nodup_singleton _, ?_⟩
      intro a ha hb
      simp only [List.mem_singleton] at hb
      subst hb
      obtain ⟨r, hr, hrid⟩ := List.mem_map.mp ha
      exact Nat.ne_of_lt (hlt r hr) hrid
  | Cancelled e =>
    simp only [apply_value, hv]
    cases hlook : get_latest_offer_id s.rows (convert_domain_name e.domain_name)
        (addr_to_string e.address) with
    | none => exact ⟨hlt, hnd⟩
    | some i =>
      have hids : (s.rows.map (upd_if_id i (cancel_update e v))).map (fun r => r.id) =
          s.rows.map (fun r => r.id) := by
        rw [List.map_map]
        apply List.map_congr_left
        intro r _
        exact upd_if_id_id i (cancel_update e v) r
      constructor
      · intro r hr
        obtain ⟨r0, hr0, rfl⟩ := List.mem_map.mp hr
        rw [upd_if_id_id]
        exact hlt r0 hr0
      · dsimp only
        rw [hids]
        exact hnd
  | Accepted e => simpa [apply_value, hv] using ⟨hlt, hnd⟩
  | Declined e => simpa [apply_value, hv] using ⟨hlt, hnd⟩
  | MakeCounterOffer e => simpa [apply_value, hv] using ⟨hlt, hnd⟩
  | AcceptCounterOffer e => simpa [apply_value, hv] using ⟨hlt, hnd⟩

/-- Filtering twice is filtering by the conjunction. -/
theorem filter_filter_and {α : Type} (p q : α → Bool) (l : List α) :
    (l.filter p).filter q = l.filter fun a => q a && p a := by
  induction l with
  | nil => rfl
  | cons a t ih =>
    by_cases hp : p a = true
    · by_cases hq : q a = true
      · simp [hp, hq, ih]
      · simp [hp, hq, ih]
    · by_cases hq : q a = true
      · simp [hp, hq, ih]
      · simp [hp, hq, ih]

/-- Two lists that agree after id erasure have, at every position of
their filtered views, rows sitting at a common position of the original
lists (the filter predicate must ignore the id). -/
theorem filter_pos_transfer (q : OfferRow → Bool) (hq : ∀ r, q (erase_id r) = q r) :
    ∀ (l₁ l₂ : List OfferRow), l₁.map erase_id = l₂.map erase_id →
    ∀ (j : Nat) (m₁ m₂ : OfferRow),
    (l₁.filter q)[j]? = some m₁ → (l₂.filter q)[j]? = some m₂ →
    ∃ k : Nat, l₁[k]? = some m₁ ∧ l₂[k]? = some m₂ := by
  intro l₁
  induction l₁ with
  | nil =>
    intro l₂ he j m₁ m₂ h1 h2
    simp at h1
  | cons a t₁ ih =>
    intro l₂ he j m₁ m₂ h1 h2
    cases l₂ with
    | nil => simp at he
    | cons c t₂ =>
      simp only [List.map_cons, List.cons.injEq] at he
      obtain ⟨hh, ht⟩ := he
      have hqeq : q a = q c := by rw [← hq a, ← hq c, hh]
      by_cases hqh : q a = true
      · rw [List.filter_cons_of_pos hqh] at h1
        rw [List.filter_cons_of_pos (hqeq ▸ hqh)] at h2
        cases j with
        | zero =>
          rw [List.getElem?_cons_zero, Option.some.injEq] at h1 h2
          exact ⟨0, by simp [h1], by simp [h2]⟩
        | succ j' =>
          rw [List.getElem?_cons_succ] at h1 h2
          obtain ⟨k, hk1, hk2⟩ := ih t₂ ht j' m₁ m₂ h1 h2
          exact ⟨k + 1, by simpa using hk1, by simpa using hk2⟩
      · rw [List.filter_cons_of_neg hqh] at h1
        rw [List.filter_cons_of_neg (hqeq ▸ hqh)] at h2
        obtain ⟨k, hk1, hk2⟩ := ih t₂ ht j m₁ m₂ h1 h2
        exact ⟨k + 1, by simpa using hk1, by simpa using hk2⟩

/-- Updating, in two erased-equal id-nodup lists, the rows found at one
common position through their respective ids preserves erased
equality. -/
theorem map_upd_erase_eq :
    ∀ (k : Nat) (l₁ l₂ : List OfferRow) (m₁ m₂ : OfferRow) (u : UpdateOffer),
    l₁.map erase_id = l₂.map erase_id →
    (l₁.map (fun r => r.id)).Nodup → (l₂.map (fun r => r.id)).Nodup →
    l₁[k]? = some m₁ → l₂[k]? = some m₂ →
    (l₁.map (upd_if_id m₁.id u)).map erase_id =
      (l₂.map (upd_if_id m₂.id u)).map erase_id := by
  intro k
  induction k with
  | zero =>
    intro l₁ l₂ m₁ m₂ u he hn₁ hn₂ h1 h2
    cases l₁ with
    | nil => simp at h1
    | cons a t₁ =>
      cases l₂ with
      | nil => simp at h2
      | cons c t₂ =>
        rw [List.getElem?_cons_zero, Option.some.injEq] at h1 h2
        rw [← h1, ← h2]
        simp only [List.map_cons, List.cons.injEq] at he
        obtain ⟨hh, ht⟩ := he
        simp only [List.map_cons, List.nodup_cons] at hn₁ hn₂
        have hhd₁ : upd_if_id a.id u a = apply_update a u := by simp [upd_if_id]
        have hhd₂ : upd_if_id c.id u c = apply_update c u := by simp [upd_if_id]
        have htl₁ : t₁.map (upd_if_id a.id u) = t₁ := by
          apply map_upd_not_mem
          intro r hr hrid
          exact hn₁.1 (hrid ▸ List.mem_map_of_mem (fun x => x.id) hr)
        have htl₂ : t₂.map (upd_if_id c.id u) = t₂ := by
          apply map_upd_not_mem
          intro r hr hrid
          exact hn₂.1 (hrid ▸ List.mem_map_of_mem (fun x => x.id) hr)
        simp only [List.map_cons, hhd₁, hhd₂, htl₁, htl₂, List.cons.injEq]
        exact ⟨erase_id_apply_update a c u hh, ht⟩
  | succ k' ih =>
    intro l₁ l₂ m₁ m₂ u he hn₁ hn₂ h1 h2
    cases l₁ with
    | nil => simp at h1
    | cons a t₁ =>
      cases l₂ with
      | nil => simp at h2
      | cons c t₂ =>
        rw [List.getElem?_cons_succ] at h1 h2
        simp only [List.map_cons, List.cons.injEq] at he
        obtain ⟨hh, ht⟩ := he
        simp only [List.map_cons, List.nodup_cons] at hn₁ hn₂
        have hm₁ : m₁ ∈ t₁ := List.getElem?_mem h1
        have hm₂ : m₂ ∈ t₂ := List.getElem?_mem h2
        have hne₁ : a.id ≠ m₁.id := by
          intro hx
          exact hn₁.1 (hx ▸ List.mem_map_of_mem (fun x => x.id) hm₁)
        have hne₂ : c.id ≠ m₂.id := by
          intro hx
          exact hn₂.1 (hx ▸ List.mem_map_of_mem (fun x => x.id) hm₂)
        have hhd₁ : upd_if_id m₁.id u a = a := by simp [upd_if_id, hne₁]
        have hhd₂ : upd_if_id m₂.id u c = c := by simp [upd_if_id, hne₂]
        simp only [List.map_cons, hhd₁, hhd₂, List.cons.injEq]
        exact ⟨hh, ih t₁ t₂ m₁ m₂ u ht hn₁.2 hn₂.2 h1 h2⟩

/-- An event keyed to one buyer never touches the rows of any other
buyer: the other buyer's filtered view of the table is unchanged, ids
included. -/
theorem apply_value_frame (s : Store) (v : OfferValue) (b : String)
    (hwf : WFStore s) (hneb : event_buyer v ≠ b) :
    (apply_value s v).rows.filter (buyer_is b) = s.rows.filter (buyer_is b) := by
  cases hv : v.event with
  | Placed e =>
    have hb : addr_to_string e.address ≠ b := by
      simpa [event_buyer, hv] using hneb
    have hrow : buyer_is b (placed_row e v s.nextId) = false := by
      simp only [buyer_is, placed_row, beq_eq_false_iff_ne, ne_eq]
      exact hb
    simp [apply_value, hv, List.filter_append, hrow]
  | Cancelled e =>
    simp only [apply_value, hv]
    cases hls : latest_aux (s.rows.filter
        (matches_key (convert_domain_name e.domain_name) (addr_to_string e.address))) with
    | none =>
      simp [get_latest_offer_id, hls]
    | some x =>
      obtain ⟨m, j⟩ := x
      have hgl : get_latest_offer_id s.rows (convert_domain_name e.domain_name)
          (addr_to_string e.address) = some m.id := by
        simp [get_latest_offer_id, hls]
      rw [hgl]
      dsimp only
      have hmmem := latest_aux_mem _ _ _ hls
      have hmrow : m ∈ s.rows := (List.mem_filter.mp hmmem).1
      have hmbuyer : m.buyer = addr_to_string e.address := by
        have hmk := (List.mem_filter.mp hmmem).2
        simp only [matches_key, Bool.and_eq_true, beq_iff_eq] at hmk
        exact hmk.2
      have hb : addr_to_string e.address ≠ b := by
        simpa [event_buyer, hv] using hneb
      rw [filter_map_comm s.rows _ _ (buyer_is_upd_if_id b m.id (cancel_update e v))]
      apply map_upd_not_mem
      intro r hr hrid
      have hrrow : r ∈ s.rows := (List.mem_filter.mp hr).1
      have hrb : r.buyer = b := by
        have := (List.mem_filter.mp hr).2
        simpa [buyer_is] using this
      have : r = m := eq_of_id_eq s.rows hwf.2 r m hrrow hmrow hrid
      rw [this, hmbuyer] at hrb
      exact hb hrb
  | Accepted e => simp [apply_value, hv]
  | Declined e => simp [apply_value, hv]
  | MakeCounterOffer e => simp [apply_value, hv]
  | AcceptCounterOffer e => simp [apply_value, hv]

/-- One event applied to two stores whose projections onto a buyer agree
after id erasure keeps those projections in agreement: the mutation an
event causes to a buyer's rows does not depend on any other buyer's
rows. -/
theorem apply_value_sim (s t : Store) (v : OfferValue) (b : String)
    (hws : WFStore s) (hwt : WFStore t)
    (hP : (s.rows.filter (buyer_is b)).map erase_id =
      (t.rows.filter (buyer_is b)).map erase_id) :
    ((apply_value s v).rows.filter (buyer_is b)).map erase_id =
      ((apply_value t v).rows.filter (buyer_is b)).map erase_id := by
  by_cases hkey : event_buyer v = b
  case neg =>
    rw [apply_value_frame s v b hws hkey, apply_value_frame t v b hwt hkey]
    exact hP
  case pos =>
    cases hv : v.event with
    | Placed e =>
      have hb : addr_to_string e.address = b := by
        simpa [event_buyer, hv] using hkey
      have hrow : ∀ n : Nat, buyer_is b (placed_row e v n) = true := by
        intro n
        simp only [buyer_is, placed_row, beq_iff_eq]
        exact hb
      have herow : ∀ n n' : Nat, erase_id (placed_row e v n) = erase_id (placed_row e v n') := by
        intro n n'
        rfl
      simp only [apply_value, hv, List.filter_append, List.map_append]
      rw [List.filter_cons_of_pos (hrow s.nextId), List.filter_cons_of_pos (hrow t.nextId)]
      simp only [List.filter_nil, List.map_cons, List.map_nil]
      rw [hP, herow s.nextId t.nextId]
    | Cancelled e =>
      have hb : addr_to_string e.address = b := by
        simpa [event_buyer, hv] using hkey
      subst hb
      simp only [apply_value, hv]
      have hqe : ∀ r : OfferRow,
          (fun x : OfferRow => x.domain_name == convert_domain_name e.domain_name) (erase_id r) =
          (fun x : OfferRow => x.domain_name == convert_domain_name e.domain_name) r :=
        fun r => rfl
      have hFs : s.rows.filter (matches_key (convert_domain_name e.domain_name)
            (addr_to_string e.address)) =
          (s.rows.filter (buyer_is (addr_to_string e.address))).filter
            (fun x => x.domain_name == convert_domain_name e.domain_name) := by
        rw [filter_filter_and]
        apply List.filter_congr
        intro a _
        rfl
      have hFt : t.rows.filter (matches_key (convert_domain_name e.domain_name)
            (addr_to_string e.address)) =
          (t.rows.filter (buyer_is (addr_to_string e.address))).filter
            (fun x => x.domain_name == convert_domain_name e.domain_name) := by
        rw [filter_filter_and]
        apply List.filter_congr
        intro a _
        rfl
      have herased : (s.rows.filter (matches_key (convert_domain_name e.domain_name)
            (addr_to_string e.address))).map erase_id =
          (t.rows.filter (matches_key (convert_domain_name e.domain_name)
            (addr_to_string e.address))).map erase_id := by
        rw [hFs, hFt,
          ← filter_map_comm (s.rows.filter (buyer_is (addr_to_string e.address))) erase_id _ hqe,
          ← filter_map_comm (t.rows.filter (buyer_is (addr_to_string e.address))) erase_id _ hqe,
          hP]
      have hlink : (latest_aux (s.rows.filter (matches_key (convert_domain_name e.domain_name)
            (addr_to_string e.address)))).map (fun x => (erase_id x.1, x.2)) =
          (latest_aux (t.rows.filter (matches_key (convert_domain_name e.domain_name)
            (addr_to_string e.address)))).map (fun x => (erase_id x.1, x.2)) := by
        rw [← latest_aux_map_erase, ← latest_aux_map_erase, herased]
      cases hls : latest_aux (s.rows.filter (matches_key (convert_domain_name e.domain_name)
          (addr_to_string e.address))) with
      | none =>
        rw [hls] at hlink
        cases hlt : latest_aux (t.rows.filter (matches_key (convert_domain_name e.domain_name)
            (addr_to_string e.address))) with
        | none =>
          simp [get_latest_offer_id, hls, hlt, hP]
        | some y =>
          rw [hlt] at hlink
          simp at hlink
      | some x =>
        obtain ⟨ms, j⟩ := x
        rw [hls] at hlink
        cases hlt : latest_aux (t.rows.filter (matches_key (convert_domain_name e.domain_name)
            (addr_to_string e.address))) with
        | none =>
          rw [hlt] at hlink
          simp at hlink
        | some y =>
          obtain ⟨mt, j'⟩ := y
          rw [hlt] at hlink
          simp only [Option.map_some', Option.some.injEq, Prod.mk.injEq] at hlink
          obtain ⟨hmm, hjj⟩ := hlink
          subst hjj
          have hgls : get_latest_offer_id s.rows (convert_domain_name e.domain_name)
              (addr_to_string e.address) = some ms.id := by
            simp [get_latest_offer_id, hls]
          have hglt : get_latest_offer_id t.rows (convert_domain_name e.domain_name)
              (addr_to_string e.address) = some mt.id := by
            simp [get_latest_offer_id, hlt]
          rw [hgls, hglt]
          dsimp only
          rw [filter_map_comm s.rows _ _
              (buyer_is_upd_if_id (addr_to_string e.address) ms.id (cancel_update e v)),
            filter_map_comm t.rows _ _
              (buyer_is_upd_if_id (addr_to_string e.address) mt.id (cancel_update e v))]
          have hgets := latest_aux_get _ _ _ hls
          have hgett := latest_aux_get _ _ _ hlt
          rw [hFs] at hgets
          rw [hFt] at hgett
          obtain ⟨k, hk1, hk2⟩ := filter_pos_transfer _ hqe _ _ hP j ms mt hgets hgett
          have hnLs : ((s.rows.filter (buyer_is (addr_to_string e.address))).map
              (fun r => r.id)).Nodup :=
            ((List.filter_sublist s.rows).map _).nodup hws.2
          have hnLt : ((t.rows.filter (buyer_is (addr_to_string e.address))).map
              (fun r => r.id)).Nodup :=
            ((List.filter_sublist t.rows).map _).nodup hwt.2
          exact map_upd_erase_eq k _ _ ms mt (cancel_update e v) hP hnLs hnLt hk1 hk2
    | Accepted e =>
      simpa [apply_value, hv] using hP
    | Declined e =>
      simpa [apply_value, hv] using hP
    | MakeCounterOffer e =>
      simpa [apply_value, hv] using hP
    | AcceptCounterOffer e =>
      simpa [apply_value, hv] using hP

theorem apply_batch_cons (v : OfferValue) (rest : List OfferValue) (s : Store) :
    apply_batch (v :: rest) s = apply_batch rest (apply_value s v) := rfl

theorem wf_apply_batch (values : List OfferValue) (s : Store) (h : WFStore s) :
    WFStore (apply_batch values s) := by
  induction values generalizing s with
  | nil => exact h
  | cons v rest ih =>
    rw [apply_batch_cons]
    exact ih (apply_value s v) (wf_apply_value s v h)

/-- Running a batch next to running only its events keyed to one buyer
keeps that buyer's projection of the table in agreement (up to the
serial ids, which depend on how many other insertions interleave). -/
theorem apply_batch_proj (b : String) (values : List OfferValue) (s t : Store)
    (hws : WFStore s) (hwt : WFStore t)
    (hP : (s.rows.filter (buyer_is b)).map erase_id =
      (t.rows.filter (buyer_is b)).map erase_id) :
    ((apply_batch values s).rows.filter (buyer_is b)).map erase_id =
      ((apply_batch (values.filter (fun v => event_buyer v == b)) t).rows.filter
        (buyer_is b)).map erase_id := by
  induction values generalizing s t with
  | nil => exact hP
  | cons v rest ih =>
    by_cases hb : event_buyer v = b
    · rw [List.filter_cons_of_pos (by simpa using hb), apply_batch_cons, apply_batch_cons]
      exact ih (apply_value s v) (apply_value t v)
        (wf_apply_value s v hws) (wf_apply_value t v hwt)
        (apply_value_sim s t v b hws hwt hP)
    · rw [List.filter_cons_of_neg (by simpa using hb), apply_batch_cons]
      apply ih (apply_value s v) t (wf_apply_value s v hws) hwt
      rw [apply_value_frame s v b hws hb]
      exact hP

theorem apply_update_idem (r : OfferRow) (u : UpdateOffer) :
    apply_update (apply_update r u) u = apply_update r u := by
  cases hu : u.owner with
  | none => simp [apply_update, hu]
  | some o => simp [apply_update, hu]

theorem upd_if_id_idem (i : Nat) (u : UpdateOffer) (r : OfferRow) :
    upd_if_id i u (upd_if_id i u r) = upd_if_id i u r := by
  by_cases h : r.id = i
  · have h2 : (apply_update r u).id = i := by rw [apply_update_id]; exact h
    simp [upd_if_id, h, h2, apply_update_idem]
  · simp [upd_if_id, h]

/-- Re-applying one Cancelled event is idempotent provided the store is
well formed and the event timestamp is at least the `updated_at` of
every matching row: the lookup re-selects the row just written, and the
update rewrites the identical values. -/
theorem apply_value_cancel_idem (s : Store) (v : OfferValue) (e : OfferCancelledEvent)
    (hv : v.event = .Cancelled e) (hwf : WFStore s)
    (hle : ∀ r ∈ s.rows,
      matches_key (convert_domain_name e.domain_name) (addr_to_string e.address) r = true →
      r.updated_at ≤ v.created_at) :
    apply_value (apply_value s v) v = apply_value s v := by
  cases hls : latest_aux (s.rows.filter
      (matches_key (convert_domain_name e.domain_name) (addr_to_string e.address))) with
  | none =>
    have hinner : apply_value s v = s := by
      simp [apply_value, hv, get_latest_offer_id, hls]
    rw [hinner, hinner]
  | some x =>
    obtain ⟨m, j⟩ := x
    have hgl : get_latest_offer_id s.rows (convert_domain_name e.domain_name)
        (addr_to_string e.address) = some m.id := by
      simp [get_latest_offer_id, hls]
    have hinner : apply_value s v =
        { s with rows := s.rows.map (upd_if_id m.id (cancel_update e v)) } := by
      simp only [apply_value, hv, hgl]
    have hn : ((s.rows.filter (matches_key (convert_domain_name e.domain_name)
        (addr_to_string e.address))).map (fun r => r.id)).Nodup :=
      ((List.filter_sublist s.rows).map _).nodup hwf.2
    have hle2 : ∀ r ∈ s.rows.filter (matches_key (convert_domain_name e.domain_name)
        (addr_to_string e.address)), r.updated_at ≤ (cancel_update e v).updated_at := by
      intro r hr
      obtain ⟨hrrow, hrk⟩ := List.mem_filter.mp hr
      exact hle r hrrow hrk
    have hstable := latest_aux_update_stable _ m j (cancel_update e v) hn hls hle2
    have hgl2 : get_latest_offer_id (s.rows.map (upd_if_id m.id (cancel_update e v)))
        (convert_domain_name e.domain_name) (addr_to_string e.address) = some m.id := by
      unfold get_latest_offer_id
      rw [filter_map_comm s.rows _ _
        (matches_key_upd_if_id (convert_domain_name e.domain_name)
          (addr_to_string e.address) m.id (cancel_update e v))]
      rw [hstable]
      simp [apply_update_id]
    have hmapidem : (s.rows.map (upd_if_id m.id (cancel_update e v))).map
        (upd_if_id m.id (cancel_update e v)) =
        s.rows.map (upd_if_id m.id (cancel_update e v)) := by
      rw [List.map_map]
      apply List.map_congr_left
      intro r _
      exact upd_if_id_idem m.id (cancel_update e v) r
    rw [hinner]
    simp only [apply_value, hv, hgl2]
    simp [hmapidem]

/-- The event, if any, that `process_event` contributes for one raw
event: the specification-side view of a successful classification. -/
def decode_some (pkg : List Char) (e : RawEvent) : Option OfferEvent :=
  match process_event pkg e with
  | .ok (some x) => some x
  | _ => none

/-- The tuples one transaction contributes to the output of `process`,
in emission order, tagged with that transaction digest and the shared
checkpoint timestamp. -/
def decoded_values (pkg : List Char) (t : Int) (tx : Transaction) : List OfferValue :=
  match tx.events with
  | none => []
  | some evs =>
    (evs.filterMap (decode_some pkg)).map
      (fun ev => { event := ev, created_at := t, tx_digest := tx.digest })

theorem process_tx_events_ok (pkg : List Char) (digest : String) (t : Int)
    (evs : List RawEvent) (vs : List OfferValue)
    (h : process_tx_events pkg digest t evs = .ok vs) :
    vs = (evs.filterMap (decode_some pkg)).map
      (fun ev => { event := ev, created_at := t, tx_digest := digest }) := by
  induction evs generalizing vs with
  | nil =>
    simp only [process_tx_events, Except.ok.injEq] at h
    simp [← h]
  | cons e rest ih =>
    simp only [process_tx_events] at h
    cases hpe : process_event pkg e with
    | error m => rw [hpe] at h; cases h
    | ok o =>
      rw [hpe] at h
      cases o with
      | none =>
        have hd : decode_some pkg e = none := by simp [decode_some, hpe]
        simp only [List.filterMap_cons, hd]
        exact ih vs h
      | some x =>
        have hd : decode_some pkg e = some x := by simp [decode_some, hpe]
        cases hrec : process_tx_events pkg digest t rest with
        | error m => rw [hrec] at h; cases h
        | ok vs' =>
          rw [hrec] at h
          simp only [Except.ok.injEq] at h
          simp only [List.filterMap_cons, hd, List.map_cons, ← h]
          rw [ih vs' hrec]

theorem process_tx_events_all_ok (pkg : List Char) (digest : String) (t : Int)
    (evs : List RawEvent) (vs : List OfferValue)
    (h : process_tx_events pkg digest t evs = .ok vs) :
    ∀ e ∈ evs, ∃ r, process_event pkg e = .ok r := by
  induction evs generalizing vs with
  | nil => intro e he; cases he
  | cons e rest ih =>
    intro a ha
    simp only [process_tx_events] at h
    cases hpe : process_event pkg e with
    | error m => rw [hpe] at h; cases h
    | ok o =>
      rw [hpe] at h
      rcases List.mem_cons.mp ha with rfl | hmem
      · exact ⟨o, hpe⟩
      · cases o with
        | none => exact ih vs h a hmem
        | some x =>
          cases hrec : process_tx_events pkg digest t rest with
          | error m => rw [hrec] at h; cases h
          | ok vs' => exact ih vs' hrec a hmem

theorem if_isEmpty_eq {α : Type} (l : List α) :
    (if l.isEmpty then ([] : List α) else l) = l := by
  cases l <;> simp

theorem process_txs_ok (pkg : List Char) (t : Int)
    (txs : List Transaction) (out : List OfferValue)
    (h : process_txs pkg t txs = .ok out) :
    out = (txs.map (decoded_values pkg t)).flatten := by
  induction txs generalizing out with
  | nil =>
    simp only [process_txs, Except.ok.injEq] at h
    simp [← h]
  | cons tx rest ih =>
    simp only [process_txs] at h
    cases htx : process_tx pkg t tx with
    | error m => rw [htx] at h; cases h
    | ok vals =>
      rw [htx] at h
      cases hrec : process_txs pkg t rest with
      | error m => rw [hrec] at h; cases h
      | ok tail =>
        rw [hrec] at h
        simp only [Except.ok.injEq] at h
        rw [← h, if_isEmpty_eq]
        simp only [List.map_cons, List.flatten_cons]
        congr 1
        · unfold process_tx at htx
          unfold decoded_values
          cases hev : tx.events with
          | none => rw [hev] at htx; simp only [Except.ok.injEq] at htx; simp [← htx]
          | some evs =>
            rw [hev] at htx
            exact process_tx_events_ok pkg tx.digest t evs vals htx
        · exact ih tail hrec

theorem process_txs_all_ok (pkg : List Char) (t : Int)
    (txs : List Transaction) (out : List OfferValue)
    (h : process_txs pkg t txs = .ok out) :
    ∀ tx ∈ txs, ∀ evs, tx.events = some evs →
      ∀ e ∈ evs, ∃ r, process_event pkg e = .ok r := by
  induction txs generalizing out with
  | nil => intro tx htx; cases htx
  | cons tx rest ih =>
    intro a ha evs hevs e he
    simp only [process_txs] at h
    cases htx : process_tx pkg t tx with
    | error m => rw [htx] at h; cases h
    | ok vals =>
      rw [htx] at h
      cases hrec : process_txs pkg t rest with
      | error m => rw [hrec] at h; cases h
      | ok tail =>
        rcases List.mem_cons.mp ha with rfl | hmem
        · unfold process_tx at htx
          rw [hevs] at htx
          exact process_tx_events_all_ok pkg a.digest t evs vals htx e he
        · exact ih tail hrec a hmem evs hevs e he

/-! ### Claims -/

/-- Claim C1: the whole batch of offer events is applied inside one
storage transaction, so whenever applying any single event of the batch
fails, the commit operation returns that error to the caller and the
store is left exactly as it was before the batch: zero mutations are
committed. -/
theorem c1_batch_atomicity (fm : FaultModel) (values : List OfferValue) (s : Store)
    (e : String) (h : commit_body fm values 0 s = .error e) :
    commit fm values s = (.error e, s) := by
  unfold commit
  cases values with
  | nil => simp [commit_body] at h
  | cons v rest =>
    rw [if_neg (by simp)]
    rw [h]

/-- A batch of ten Placed events for C1, with a storage fault injected
at the fourth event. -/
def c1_batch : List OfferValue :=
  List.replicate 10
    { event := .Placed { domain_name := [100], address := [1], value := 100 },
      created_at := 1, tx_digest := "t1" }

def c1_fault : FaultModel :=
  { fails := fun i => if i = 3 then some "storage fault" else none }

/-- Witness for C1: with one of ten events failing, the commit returns
the error and the store is untouched (zero committed mutations). -/
theorem c1_batch_atomicity_witness :
    commit_body c1_fault c1_batch 0 empty_store = .error "storage fault" ∧
    commit c1_fault c1_batch empty_store = (.error "storage fault", empty_store) :=
  ⟨by decide,
   c1_batch_atomicity c1_fault c1_batch empty_store "storage fault" (by decide)⟩

/-- The batch of claim C2: Placed(d, b, 100), then
MakeCounterOffer(d, b, owner, buyer, 150), then
AcceptCounterOffer(d, b, 150), in order. -/
def c2_batch : List OfferValue :=
  [{ event := .Placed { domain_name := [100], address := [1], value := 100 },
     created_at := 1, tx_digest := "t1" },
   { event := .MakeCounterOffer
       { domain_name := [100], owner := [2], buyer := [1], value := 150 },
     created_at := 2, tx_digest := "t2" },
   { event := .AcceptCounterOffer { domain_name := [100], buyer := [1], value := 150 },
     created_at := 3, tx_digest := "t3" }]

/-- Claim C2 names a behavior the source does not implement: the
MakeCounterOffer and AcceptCounterOffer arms of the commit match are
commented out (a TODO stub), so the batch of the claim leaves the single
row exactly as the Placed event created it: status Placed, value 100,
never AcceptedCountered with value 150 as the claim requires. The
commented-out bodies and the TODO marker show the claimed behavior as
the intent. -/
theorem c2_counter_offer_stubbed :
    apply_batch c2_batch empty_store =
      { rows := [{ id := 0, domain_name := "d", buyer := "0x01",
                   initial_value := "100", value := "100", owner := none,
                   status := OfferStatus.Placed, updated_at := 1, created_at := 1,
                   last_tx_digest := "t1" }],
        nextId := 1 } ∧
    (apply_batch c2_batch empty_store).rows.map (fun r => r.status) ≠
      [OfferStatus.AcceptedCountered] ∧
    (apply_batch c2_batch empty_store).rows.map (fun r => r.value) ≠ ["150"] := by
  refine ⟨by decide, by decide, by decide⟩

/-- Claim C3: a Placed event always appends exactly one fresh row whose
fields are taken from the event and the batched tuple: both value
columns carry the event value, the owner is null, the status is Placed,
the buyer is the rendered address field, and the timestamps and digest
come from the tuple; when no row for the (domain, buyer) pair existed,
that pair then has exactly one row. -/
theorem c3_placed_inserts (s : Store) (v : OfferValue) (e : OfferPlacedEvent)
    (hv : v.event = .Placed e)
    (hno : ∀ r ∈ s.rows,
      matches_key (convert_domain_name e.domain_name) (addr_to_string e.address) r = false) :
    apply_value s v =
      { rows := s.rows ++ [placed_row e v s.nextId], nextId := s.nextId + 1 } ∧
    placed_row e v s.nextId =
      { id := s.nextId
        domain_name := convert_domain_name e.domain_name
        buyer := addr_to_string e.address
        initial_value := u64_to_string e.value
        value := u64_to_string e.value
        owner := none
        status := OfferStatus.Placed
        updated_at := v.created_at
        created_at := v.created_at
        last_tx_digest := v.tx_digest } ∧
    ((apply_value s v).rows.filter
      (matches_key (convert_domain_name e.domain_name) (addr_to_string e.address))).length
      = 1 := by
  have h1 : apply_value s v =
      { rows := s.rows ++ [placed_row e v s.nextId], nextId := s.nextId + 1 } := by
    simp [apply_value, hv]
  refine ⟨h1, rfl, ?_⟩
  rw [h1]
  have hold : s.rows.filter
      (matches_key (convert_domain_name e.domain_name) (addr_to_string e.address)) = [] :=
    List.filter_eq_nil_iff.mpr (fun r hr => by simp [hno r hr])
  have hnew : matches_key (convert_domain_name e.domain_name) (addr_to_string e.address)
      (placed_row e v s.nextId) = true := by
    simp [matches_key, placed_row]
  simp [List.filter_append, hold, hnew]

def c3_ev : OfferPlacedEvent := { domain_name := [100], address := [1], value := 100 }

def c3_store : Store :=
  { rows := [{ id := 0, domain_name := "d", buyer := "0x02", initial_value := "7",
               value := "7", owner := none, status := OfferStatus.Placed,
               updated_at := 1, created_at := 1, last_tx_digest := "t0" }],
    nextId := 1 }

def c3_val : OfferValue :=
  { event := .Placed c3_ev, created_at := 2, tx_digest := "t1" }

/-- Witness for C3 at a store whose only row belongs to another buyer of
the same domain. -/
theorem c3_placed_inserts_witness :
    apply_value c3_store c3_val =
      { rows := c3_store.rows ++ [placed_row c3_ev c3_val c3_store.nextId],
        nextId := c3_store.nextId + 1 } ∧
    placed_row c3_ev c3_val c3_store.nextId =
      { id := c3_store.nextId
        domain_name := convert_domain_name c3_ev.domain_name
        buyer := addr_to_string c3_ev.address
        initial_value := u64_to_string c3_ev.value
        value := u64_to_string c3_ev.value
        owner := none
        status := OfferStatus.Placed
        updated_at := c3_val.created_at
        created_at := c3_val.created_at
        last_tx_digest := c3_val.tx_digest } ∧
    ((apply_value c3_store c3_val).rows.filter
      (matches_key (convert_domain_name c3_ev.domain_name)
        (addr_to_string c3_ev.address))).length = 1 :=
  c3_placed_inserts c3_store c3_val c3_ev rfl (by decide)

/-- Claim C4: for a Cancelled event, the lookup fails exactly when no
row matches (domain, buyer = address); when it fails the event causes no
mutation and no error and the rest of the batch still runs; when it
succeeds, the updated row is a matching row carrying the maximal
`updated_at` among the matching rows (the most recently updated one),
and it receives status Cancelled, the event value, and the timestamp and
digest of the tuple through `cancel_update`. -/
theorem c4_cancelled_lookup_update (s : Store) (v : OfferValue) (e : OfferCancelledEvent)
    (hv : v.event = .Cancelled e) :
    (get_latest_offer_id s.rows (convert_domain_name e.domain_name)
        (addr_to_string e.address) = none ↔
      ∀ r ∈ s.rows, matches_key (convert_domain_name e.domain_name)
        (addr_to_string e.address) r = false) ∧
    (get_latest_offer_id s.rows (convert_domain_name e.domain_name)
        (addr_to_string e.address) = none →
      apply_value s v = s ∧
      ∀ rest : List OfferValue, apply_batch (v :: rest) s = apply_batch rest s) ∧
    (∀ i : Nat, get_latest_offer_id s.rows (convert_domain_name e.domain_name)
        (addr_to_string e.address) = some i →
      ∃ m ∈ s.rows, m.id = i ∧
        matches_key (convert_domain_name e.domain_name) (addr_to_string e.address) m
          = true ∧
        (∀ r ∈ s.rows,
          matches_key (convert_domain_name e.domain_name) (addr_to_string e.address) r
            = true → r.updated_at ≤ m.updated_at) ∧
        apply_value s v =
          { s with rows := s.rows.map (upd_if_id i (cancel_update e v)) }) := by
  refine ⟨?_, ?_, ?_⟩
  · rw [get_latest_offer_id, Option.map_eq_none', latest_aux_eq_none,
      List.filter_eq_nil_iff]
    constructor
    · intro h r hr
      simpa using h r hr
    · intro h r hr
      simp [h r hr]
  · intro hnone
    have happ : apply_value s v = s := by
      simp [apply_value, hv, hnone]
    exact ⟨happ, fun rest => by rw [apply_batch_cons, happ]⟩
  · intro i hi
    rw [get_latest_offer_id] at hi
    cases hls : latest_aux (s.rows.filter (matches_key (convert_domain_name e.domain_name)
        (addr_to_string e.address))) with
    | none => rw [hls] at hi; cases hi
    | some x =>
      obtain ⟨m, j⟩ := x
      rw [hls] at hi
      simp only [Option.map_some', Option.some.injEq] at hi
      have hmmem := latest_aux_mem _ _ _ hls
      obtain ⟨hmrow, hmk⟩ := List.mem_filter.mp hmmem
      refine ⟨m, hmrow, hi, hmk, ?_, ?_⟩
      · intro r hr hrk
        exact latest_aux_le _ _ _ hls r (List.mem_filter.mpr ⟨hr, hrk⟩)
      · have hgl : get_latest_offer_id s.rows (convert_domain_name e.domain_name)
            (addr_to_string e.address) = some i := by
          rw [get_latest_offer_id, hls]
          simp [hi]
        simp only [apply_value, hv, hgl]

def c4_ev : OfferCancelledEvent := { domain_name := [100], address := [1], value := 150 }

def c4_val : OfferValue :=
  { event := .Cancelled c4_ev, created_at := 5, tx_digest := "t9" }

def c4_row : OfferRow :=
  { id := 3, domain_name := "d", buyer := "0x01", initial_value := "100",
    value := "100", owner := none, status := OfferStatus.Placed,
    updated_at := 2, created_at := 1, last_tx_digest := "t1" }

def c4_store_hit : Store := { rows := [c4_row], nextId := 4 }

def c4_store_miss : Store :=
  { rows := [{ c4_row with buyer := "0x02" }], nextId := 4 }

/-- Witness for C4: one store where the lookup hits and one where every
row belongs to another buyer, so the event is skipped without error. -/
theorem c4_cancelled_lookup_update_witness :
    (∃ m ∈ c4_store_hit.rows, m.id = 3 ∧
      matches_key (convert_domain_name c4_ev.domain_name)
        (addr_to_string c4_ev.address) m = true ∧
      (∀ r ∈ c4_store_hit.rows,
        matches_key (convert_domain_name c4_ev.domain_name)
          (addr_to_string c4_ev.address) r = true → r.updated_at ≤ m.updated_at) ∧
      apply_value c4_store_hit c4_val =
        { c4_store_hit with
            rows := c4_store_hit.rows.map (upd_if_id 3 (cancel_update c4_ev c4_val)) }) ∧
    apply_value c4_store_miss c4_val = c4_store_miss ∧
    apply_batch [c4_val] c4_store_miss = apply_batch [] c4_store_miss := by
  refine ⟨(c4_cancelled_lookup_update c4_store_hit c4_val c4_ev rfl).2.2 3 (by decide),
    ?_, ?_⟩
  · exact ((c4_cancelled_lookup_update c4_store_miss c4_val c4_ev rfl).2.1 (by decide)).1
  · exact ((c4_cancelled_lookup_update c4_store_miss c4_val c4_ev rfl).2.1 (by decide)).2 []

def c5_store : Store :=
  apply_batch
    [{ event := .Placed { domain_name := [100], address := [1], value := 100 },
       created_at := 1, tx_digest := "t1" },
     { event := .Cancelled { domain_name := [100], address := [1], value := 100 },
       created_at := 2, tx_digest := "t2" }]
    empty_store

def c5_val : OfferValue :=
  { event := .Cancelled { domain_name := [100], address := [1], value := 200 },
    created_at := 3, tx_digest := "t3" }

/-- Counterexample to claim C5: in a store reached from the empty table,
whose single row sits in the terminal status Cancelled, a later
Cancelled event resolving to that row still mutates it — the value
becomes 200 and the timestamp and digest move — because the Cancelled
branch never checks the current status before updating. Terminal
statuses are not absorbing. -/
theorem c5_terminal_status_mutated :
    c5_store.rows.map (fun r => r.status) = [OfferStatus.Cancelled] ∧
    apply_value c5_store c5_val ≠ c5_store ∧
    (apply_value c5_store c5_val).rows.map (fun r => r.value) = ["200"] ∧
    c5_store.rows.map (fun r => r.value) = ["100"] := by
  refine ⟨by decide, by decide, by decide, by decide⟩

/-- True for event kinds whose commit branch is a stub that mutates
nothing: all kinds except Placed and Cancelled. -/
def inert_event (v : OfferValue) : Bool :=
  match v.event with
  | .Placed _ => false
  | .Cancelled _ => false
  | _ => true

/-- Claim C5 amended: rows in a terminal status are only absorbing with
respect to the four event kinds whose branches are inert stubs
(Accepted, Declined, MakeCounterOffer, AcceptCounterOffer) — those
mutate no row of any store at all; a Cancelled event, by contrast, can
re-mutate a row already in a terminal status (see the
counterexample). -/
theorem c5_inert_kinds_mutate_nothing (s : Store) (v : OfferValue)
    (h : inert_event v = true) :
    apply_value s v = s := by
  unfold inert_event at h
  cases hv : v.event with
  | Placed e => rw [hv] at h; cases h
  | Cancelled e => rw [hv] at h; cases h
  | Accepted e => simp [apply_value, hv]
  | Declined e => simp [apply_value, hv]
  | MakeCounterOffer e => simp [apply_value, hv]
  | AcceptCounterOffer e => simp [apply_value, hv]

def c5_acc_val : OfferValue :=
  { event := .Accepted { domain_name := [100], owner := [2], buyer := [1], value := 100 },
    created_at := 3, tx_digest := "t3" }

/-- Witness for the amended C5: an Accepted event leaves the terminal
store of the counterexample untouched. -/
theorem c5_inert_kinds_mutate_nothing_witness :
    inert_event c5_acc_val = true ∧ apply_value c5_store c5_acc_val = c5_store :=
  ⟨by decide, c5_inert_kinds_mutate_nothing c5_store c5_acc_val (by decide)⟩

def c6_val : OfferValue :=
  { event := .Placed { domain_name := [100], address := [1], value := 100 },
    created_at := 1, tx_digest := "t1" }

/-- Counterexample to claim C6: committing the same batch twice is not
idempotent, because the Placed branch inserts unconditionally — running
a one-event Placed batch twice from the empty table leaves two rows
where one run leaves one. -/
theorem c6_placed_not_idempotent :
    apply_batch [c6_val] (apply_batch [c6_val] empty_store) ≠
      apply_batch [c6_val] empty_store ∧
    (apply_batch [c6_val] (apply_batch [c6_val] empty_store)).rows.length = 2 ∧
    (apply_batch [c6_val] empty_store).rows.length = 1 := by
  refine ⟨by decide, by decide, by decide⟩

/-- Claim C6 amended: batch application is not idempotent in general
(any Placed event re-inserts, see the counterexample); what holds is
idempotence of re-applying a Cancelled event: over a well-formed store,
when the event timestamp is at least the `updated_at` of every matching
row, running the one-event batch a second time re-selects the row the
first run updated and rewrites the identical values, leaving the store
unchanged. -/
theorem c6_cancel_batch_idempotent (s : Store) (v : OfferValue) (e : OfferCancelledEvent)
    (hv : v.event = .Cancelled e) (hwf : WFStore s)
    (hle : ∀ r ∈ s.rows,
      matches_key (convert_domain_name e.domain_name) (addr_to_string e.address) r = true →
      r.updated_at ≤ v.created_at) :
    apply_batch [v] (apply_batch [v] s) = apply_batch [v] s := by
  show apply_value (apply_value s v) v = apply_value s v
  exact apply_value_cancel_idem s v e hv hwf hle

def c6_c_store : Store :=
  apply_batch
    [{ event := .Placed { domain_name := [100], address := [1], value := 100 },
       created_at := 1, tx_digest := "t1" }]
    empty_store

def c6_c_ev : OfferCancelledEvent := { domain_name := [100], address := [1], value := 80 }

def c6_c_val : OfferValue :=
  { event := .Cancelled c6_c_ev, created_at := 2, tx_digest := "t2" }

/-- Witness for the amended C6: cancelling twice equals cancelling
once. -/
theorem c6_cancel_batch_idempotent_witness :
    WFStore c6_c_store ∧
    apply_batch [c6_c_val] (apply_batch [c6_c_val] c6_c_store) =
      apply_batch [c6_c_val] c6_c_store :=
  ⟨by constructor <;> decide,
   c6_cancel_batch_idempotent c6_c_store c6_c_val c6_c_ev rfl
     (by constructor <;> decide) (by decide)⟩

def c7_raw : RawEvent := { type_ := "pkg::offers::SomeOtherEvent".data, contents := [] }

/-- Counterexample to claim C7: an event whose type tag begins with the
configured package id but whose suffix is none of the six recognized
ones is silently skipped — `process_event` falls through every branch
and returns ok-none, not the hard error the claim requires. -/
theorem c7_unrecognized_suffix_skipped :
    "pkg".data.isPrefixOf c7_raw.type_ = true ∧
    suffix_placed.isSuffixOf c7_raw.type_ = false ∧
    suffix_cancelled.isSuffixOf c7_raw.type_ = false ∧
    suffix_accepted.isSuffixOf c7_raw.type_ = false ∧
    suffix_declined.isSuffixOf c7_raw.type_ = false ∧
    suffix_make_counter.isSuffixOf c7_raw.type_ = false ∧
    suffix_accept_counter.isSuffixOf c7_raw.type_ = false ∧
    process_event "pkg".data c7_raw = .ok none := by
  refine ⟨by decide, by decide, by decide, by decide, by decide, by decide, by decide,
    by decide⟩

/-- The tag begins with the package id and the branch the suffix chain
selects is a recognized event kind whose payload fails BCS
deserialization. -/
def decode_failure (pkg : List Char) (ev : RawEvent) : Bool :=
  pkg.isPrefixOf ev.type_ &&
  (if suffix_placed.isSuffixOf ev.type_ then
    (deserialize_offer_placed ev.contents).isNone
  else if suffix_cancelled.isSuffixOf ev.type_ then
    (deserialize_offer_cancelled ev.contents).isNone
  else if suffix_accepted.isSuffixOf ev.type_ then
    (deserialize_offer_accepted ev.contents).isNone
  else if suffix_declined.isSuffixOf ev.type_ then
    (deserialize_offer_declined ev.contents).isNone
  else if suffix_make_counter.isSuffixOf ev.type_ then
    (deserialize_make_counter_offer ev.contents).isNone
  else if suffix_accept_counter.isSuffixOf ev.type_ then
    (deserialize_accept_counter_offer ev.contents).isNone
  else false)

/-- Claim C7 amended: when the tag begins with the package id and the
suffix chain reaches a recognized event kind whose payload fails binary
deserialization, event processing returns a hard error, and a checkpoint
whose extraction succeeded can have contained no such event (the decode
error aborts the checkpoint — in the source through a panic, modelled
here as error propagation). An unrecognized suffix, however, is silently
skipped, not an error (see the counterexample). -/
theorem c7_decode_error_aborts :
    (∀ (pkg : List Char) (ev : RawEvent), decode_failure pkg ev = true →
      process_event pkg ev = .error "Failed to deserialize") ∧
    (∀ (pkg : List Char) (cp : Checkpoint) (out : List OfferValue),
      process pkg cp = .ok out →
      ∀ tx ∈ cp.transactions, ∀ evs, tx.events = some evs →
        ∀ e ∈ evs, ∃ r, process_event pkg e = .ok r) := by
  constructor
  · intro pkg ev h
    unfold decode_failure at h
    rw [Bool.and_eq_true] at h
    obtain ⟨hpre, hchain⟩ := h
    unfold process_event
    rw [if_pos hpre]
    by_cases h1 : suffix_placed.isSuffixOf ev.type_
    · rw [if_pos h1] at hchain ⊢
      rw [Option.isNone_iff_eq_none] at hchain
      rw [hchain]
    · rw [if_neg h1] at hchain ⊢
      by_cases h2 : suffix_cancelled.isSuffixOf ev.type_
      · rw [if_pos h2] at hchain ⊢
        rw [Option.isNone_iff_eq_none] at hchain
        rw [hchain]
      · rw [if_neg h2] at hchain ⊢
        by_cases h3 : suffix_accepted.isSuffixOf ev.type_
        · rw [if_pos h3] at hchain ⊢
          rw [Option.isNone_iff_eq_none] at hchain
          rw [hchain]
        · rw [if_neg h3] at hchain ⊢
          by_cases h4 : suffix_declined.isSuffixOf ev.type_
          · rw [if_pos h4] at hchain ⊢
            rw [Option.isNone_iff_eq_none] at hchain
            rw [hchain]
          · rw [if_neg h4] at hchain ⊢
            by_cases h5 : suffix_make_counter.isSuffixOf ev.type_
            · rw [if_pos h5] at hchain ⊢
              rw [Option.isNone_iff_eq_none] at hchain
              rw [hchain]
            · rw [if_neg h5] at hchain ⊢
              by_cases h6 : suffix_accept_counter.isSuffixOf ev.type_
              · rw [if_pos h6] at hchain ⊢
                rw [Option.isNone_iff_eq_none] at hchain
                rw [hchain]
              · rw [if_neg h6] at hchain
                cases hchain
  · intro pkg cp out h
    unfold process at h
    cases hd : derive_created_at cp.timestamp_ms with
    | error m => rw [hd] at h; cases h
    | ok t =>
      rw [hd] at h
      exact process_txs_all_ok pkg t cp.transactions out h

def c7_bad : RawEvent := { type_ := "pkg::offers::OfferPlacedEvent".data, contents := [7] }

def c7_good_payload : List Nat :=
  [1, 100] ++ List.replicate 32 7 ++ [100, 0, 0, 0, 0, 0, 0, 0]

def c7_good : RawEvent :=
  { type_ := "pkg::offers::OfferPlacedEvent".data, contents := c7_good_payload }

def c7_cp : Checkpoint :=
  { timestamp_ms := 1000, transactions := [{ digest := "tx", events := some [c7_good] }] }

def c7_out : List OfferValue :=
  [{ event := .Placed { domain_name := [100], address := List.replicate 32 7, value := 100 },
     created_at := 1000, tx_digest := "tx" }]

/-- Witness for the amended C7: a truncated Placed payload makes event
processing fail hard, and a checkpoint processed successfully implies
every contained event processed without error. -/
theorem c7_decode_error_aborts_witness :
    decode_failure "pkg".data c7_bad = true ∧
    process_event "pkg".data c7_bad = .error "Failed to deserialize" ∧
    (∃ r, process_event "pkg".data c7_good = .ok r) :=
  ⟨by decide,
   c7_decode_error_aborts.1 "pkg".data c7_bad (by decide),
   c7_decode_error_aborts.2 "pkg".data c7_cp c7_out (by decide)
     { digest := "tx", events := some [c7_good] } (by decide) [c7_good] rfl c7_good
     (by decide)⟩

/-- Claim C8: a successful extraction of a checkpoint returns exactly
the decoded events in checkpoint order — the concatenation, over the
transactions in their given order, of each transaction decoded events in
emission order, every tuple carrying the digest of its own transaction —
and every tuple shares the one `created_at` derived from the checkpoint
millisecond timestamp. -/
theorem c8_process_ordered_output (pkg : List Char) (cp : Checkpoint)
    (out : List OfferValue) (h : process pkg cp = .ok out) :
    ∃ t : Int, derive_created_at cp.timestamp_ms = .ok t ∧
      out = (cp.transactions.map (decoded_values pkg t)).flatten ∧
      ∀ v ∈ out, v.created_at = t := by
  unfold process at h
  cases hd : derive_created_at cp.timestamp_ms with
  | error m => rw [hd] at h; cases h
  | ok t =>
    rw [hd] at h
    have heq := process_txs_ok pkg t cp.transactions out h
    refine ⟨t, rfl, heq, ?_⟩
    intro v hv
    rw [heq, List.mem_flatten] at hv
    obtain ⟨l, hl, hvl⟩ := hv
    rw [List.mem_map] at hl
    obtain ⟨tx, htx, rfl⟩ := hl
    unfold decoded_values at hvl
    cases hev : tx.events with
    | none => rw [hev] at hvl; cases hvl
    | some evs =>
      rw [hev] at hvl
      rw [List.mem_map] at hvl
      obtain ⟨ev, hev2, rfl⟩ := hvl
      rfl

def c8_placed_payload : List Nat :=
  [1, 100] ++ List.replicate 32 7 ++ [100, 0, 0, 0, 0, 0, 0, 0]

def c8_cancelled_payload : List Nat :=
  [1, 101] ++ List.replicate 32 9 ++ [55, 0, 0, 0, 0, 0, 0, 0]

def c8_cp : Checkpoint :=
  { timestamp_ms := 1234
    transactions :=
      [{ digest := "t1"
         events := some
           [{ type_ := "pkg::offers::OfferPlacedEvent".data,
              contents := c8_placed_payload },
            { type_ := "other::offers::OfferPlacedEvent".data, contents := [] }] },
       { digest := "t2", events := none },
       { digest := "t3"
         events := some
           [{ type_ := "pkg::offers::OfferCancelledEvent".data,
              contents := c8_cancelled_payload }] }] }

def c8_out : List OfferValue :=
  [{ event := .Placed { domain_name := [100], address := List.replicate 32 7, value := 100 },
     created_at := 1234, tx_digest := "t1" },
   { event := .Cancelled { domain_name := [101], address := List.replicate 32 9, value := 55 },
     created_at := 1234, tx_digest := "t3" }]

/-- Witness for C8 on a three-transaction checkpoint: the non-matching
event is dropped, order and digests are preserved, and both tuples share
the derived timestamp. -/
theorem c8_process_ordered_output_witness :
    derive_created_at c8_cp.timestamp_ms = .ok 1234 ∧
    c8_out = (c8_cp.transactions.map (decoded_values "pkg".data 1234)).flatten ∧
    ∀ v ∈ c8_out, v.created_at = 1234 := by
  obtain ⟨t, ht, h2, h3⟩ :=
    c8_process_ordered_output "pkg".data c8_cp c8_out (by decide)
  have h1234 : derive_created_at c8_cp.timestamp_ms = .ok (1234 : Int) := by decide
  rw [ht] at h1234
  injection h1234 with h4
  subst h4
  exact ⟨ht, h2, h3⟩

/-- Claim C9: negotiations of different buyers never interfere. An
event keyed to one buyer leaves the rows of every other buyer exactly
unchanged (even on the same domain), and a batch drives each buyer
projection of the table to the same rows (up to the serial ids, which
count insertions globally) as running only that buyer events would. -/
theorem c9_buyer_noninterference (s : Store) (b : String) (hwf : WFStore s) :
    (∀ v : OfferValue, event_buyer v ≠ b →
      (apply_value s v).rows.filter (buyer_is b) = s.rows.filter (buyer_is b)) ∧
    (∀ values : List OfferValue,
      ((apply_batch values s).rows.filter (buyer_is b)).map erase_id =
        ((apply_batch (values.filter (fun v => event_buyer v == b)) s).rows.filter
          (buyer_is b)).map erase_id) :=
  ⟨fun v hv => apply_value_frame s v b hwf hv,
   fun values => apply_batch_proj b values s s hwf hwf rfl⟩

def c9_store : Store :=
  { rows :=
      [{ id := 0, domain_name := "d", buyer := "0x01", initial_value := "100",
         value := "100", owner := none, status := OfferStatus.Placed,
         updated_at := 1, created_at := 1, last_tx_digest := "a1" },
       { id := 1, domain_name := "d", buyer := "0x02", initial_value := "90",
         value := "90", owner := none, status := OfferStatus.Placed,
         updated_at := 1, created_at := 1, last_tx_digest := "a2" }]
    nextId := 2 }

def c9_v1 : OfferValue :=
  { event := .Cancelled { domain_name := [100], address := [1], value := 70 },
    created_at := 4, tx_digest := "a4" }

def c9_vals : List OfferValue :=
  [{ event := .Placed { domain_name := [100], address := [1], value := 120 },
     created_at := 2, tx_digest := "a3" },
   { event := .Cancelled { domain_name := [100], address := [2], value := 50 },
     created_at := 3, tx_digest := "a5" },
   c9_v1]

/-- Witness for C9: over a store holding two negotiations for the same
domain, one event keyed to buyer 0x01 leaves the 0x02 rows untouched,
and a mixed batch leaves the 0x02 projection as the 0x02-only batch
would. -/
theorem c9_buyer_noninterference_witness :
    ((apply_value c9_store c9_v1).rows.filter (buyer_is "0x02") =
      c9_store.rows.filter (buyer_is "0x02")) ∧
    ((apply_batch c9_vals c9_store).rows.filter (buyer_is "0x02")).map erase_id =
      ((apply_batch (c9_vals.filter (fun v => event_buyer v == "0x02"))
        c9_store).rows.filter (buyer_is "0x02")).map erase_id :=
  ⟨(c9_buyer_noninterference c9_store "0x02" (by constructor <;> decide)).1 c9_v1
    (by decide),
   (c9_buyer_noninterference c9_store "0x02" (by constructor <;> decide)).2 c9_vals⟩

/-- Claim C10: the update a Cancelled event performs touches only the
row carrying the looked-up id — unique in a well-formed store — and on
that row only the value, status, updated-at and digest columns: owner,
initial value, creation time, domain name, buyer and id keep their
stored values, and every row with a different id is untouched. -/
theorem c10_cancel_update_frame (s : Store) (v : OfferValue) (e : OfferCancelledEvent)
    (i : Nat) (hv : v.event = .Cancelled e) (hwf : WFStore s)
    (hgl : get_latest_offer_id s.rows (convert_domain_name e.domain_name)
      (addr_to_string e.address) = some i) :
    (apply_value s v).nextId = s.nextId ∧
    (apply_value s v).rows = s.rows.map (upd_if_id i (cancel_update e v)) ∧
    (∀ r ∈ s.rows, r.id ≠ i → upd_if_id i (cancel_update e v) r = r) ∧
    (∀ r ∈ s.rows, r.id = i →
      (upd_if_id i (cancel_update e v) r).owner = r.owner ∧
      (upd_if_id i (cancel_update e v) r).initial_value = r.initial_value ∧
      (upd_if_id i (cancel_update e v) r).created_at = r.created_at ∧
      (upd_if_id i (cancel_update e v) r).domain_name = r.domain_name ∧
      (upd_if_id i (cancel_update e v) r).buyer = r.buyer ∧
      (upd_if_id i (cancel_update e v) r).id = r.id ∧
      (upd_if_id i (cancel_update e v) r).value = u64_to_string e.value ∧
      (upd_if_id i (cancel_update e v) r).status = OfferStatus.Cancelled ∧
      (upd_if_id i (cancel_update e v) r).updated_at = v.created_at ∧
      (upd_if_id i (cancel_update e v) r).last_tx_digest = v.tx_digest) ∧
    (∀ r ∈ s.rows, ∀ r2 ∈ s.rows, r.id = i → r2.id = i → r = r2) := by
  refine ⟨?_, ?_, ?_, ?_, ?_⟩
  · simp [apply_value, hv, hgl]
  · simp [apply_value, hv, hgl]
  · intro r _ hr
    simp [upd_if_id, hr]
  · intro r _ hr
    have hu : upd_if_id i (cancel_update e v) r = apply_update r (cancel_update e v) := by
      simp [upd_if_id, hr]
    rw [hu]
    refine ⟨rfl, rfl, rfl, rfl, rfl, rfl, rfl, rfl, rfl, rfl⟩
  · intro r hrm r2 hr2m hr hr2
    exact eq_of_id_eq s.rows hwf.2 r r2 hrm hr2m (hr.trans hr2.symm)

def c10_ev : OfferCancelledEvent := { domain_name := [100], address := [1], value := 60 }

def c10_val : OfferValue :=
  { event := .Cancelled c10_ev, created_at := 6, tx_digest := "b6" }

def c10_store : Store :=
  { rows :=
      [{ id := 0, domain_name := "d", buyer := "0x01", initial_value := "100",
         value := "100", owner := some "0x09", status := OfferStatus.Placed,
         updated_at := 1, created_at := 1, last_tx_digest := "b1" },
       { id := 1, domain_name := "d", buyer := "0x02", initial_value := "90",
         value := "90", owner := none, status := OfferStatus.Placed,
         updated_at := 2, created_at := 2, last_tx_digest := "b2" }]
    nextId := 2 }

/-- Witness for C10 on a two-row store: the lookup selects row 0 and the
frame facts hold there. -/
theorem c10_cancel_update_frame_witness :
    (apply_value c10_store c10_val).nextId = c10_store.nextId ∧
    (apply_value c10_store c10_val).rows =
      c10_store.rows.map (upd_if_id 0 (cancel_update c10_ev c10_val)) ∧
    (∀ r ∈ c10_store.rows, r.id ≠ 0 →
      upd_if_id 0 (cancel_update c10_ev c10_val) r = r) ∧
    (∀ r ∈ c10_store.rows, r.id = 0 →
      (upd_if_id 0 (cancel_update c10_ev c10_val) r).owner = r.owner ∧
      (upd_if_id 0 (cancel_update c10_ev c10_val) r).initial_value = r.initial_value ∧
      (upd_if_id 0 (cancel_update c10_ev c10_val) r).created_at = r.created_at ∧
      (upd_if_id 0 (cancel_update c10_ev c10_val) r).domain_name = r.domain_name ∧
      (upd_if_id 0 (cancel_update c10_ev c10_val) r).buyer = r.buyer ∧
      (upd_if_id 0 (cancel_update c10_ev c10_val) r).id = r.id ∧
      (upd_if_id 0 (cancel_update c10_ev c10_val) r).value = u64_to_string c10_ev.value ∧
      (upd_if_id 0 (cancel_update c10_ev c10_val) r).status = OfferStatus.Cancelled ∧
      (upd_if_id 0 (cancel_update c10_ev c10_val) r).updated_at = c10_val.created_at ∧
      (upd_if_id 0 (cancel_update c10_ev c10_val) r).last_tx_digest
        = c10_val.tx_digest) ∧
    (∀ r ∈ c10_store.rows, ∀ r2 ∈ c10_store.rows, r.id = 0 → r2.id = 0 → r = r2) :=
  c10_cancel_update_frame c10_store c10_val c10_ev 0 rfl
    (by constructor <;> decide) (by decide)
